import Mathlib

/-!
Verification of the confidential-output payload codec of the Tari repository
slice, shallowly embedding `base_layer/core/src/transactions/transaction_components/encrypted_data.rs`.

Bytes are modelled as `Nat` (with values below 256 wherever the source holds a
`u8`); machine integers are `Nat` with explicit wraparound where it matters.
The external address module, the XChaCha20-Poly1305 AEAD, the Blake2b KDF and
the hex codec of `tari_utilities` are not part of the source slice; they are
modelled from the spec, each marked `Modelled from the spec:` in its doc
comment.
-/

set_option maxRecDepth 100000

namespace Tari

/-- Little-endian byte encoding of `v` into `n` bytes, mirroring the low `n`
bytes of Rust `to_le_bytes`. -/
def toLeBytes : Nat → Nat → List Nat
  | 0, _ => []
  | n + 1, v => v % 256 :: toLeBytes n (v / 256)

/-- Little-endian byte decoding, mirroring Rust `from_le_bytes`. -/
def fromLeBytes : List Nat → Nat
  | [] => 0
  | b :: t => b + 256 * fromLeBytes t

/-- Big-endian byte encoding (`to_be_bytes` restricted to its low `n` bytes). -/
def toBeBytes (n v : Nat) : List Nat := (toLeBytes n v).reverse

/-- Big-endian byte decoding (`from_be_bytes`). -/
def fromBeBytes (l : List Nat) : Nat := fromLeBytes l.reverse

theorem toLeBytes_length (n v : Nat) : (toLeBytes n v).length = n := by
  induction n generalizing v with
  | zero => rfl
  | succ k ih => simp [toLeBytes, ih]

theorem toBeBytes_length (n v : Nat) : (toBeBytes n v).length = n := by
  simp [toBeBytes, toLeBytes_length]

theorem fromLeBytes_toLeBytes (n v : Nat) :
    fromLeBytes (toLeBytes n v) = v % 256 ^ n := by
  induction n generalizing v with
  | zero => simp [toLeBytes, fromLeBytes, Nat.mod_one]
  | succ k ih =>
      have h256 : (0:Nat) < 256 := by norm_num
      calc fromLeBytes (toLeBytes (k+1) v)
          = v % 256 + 256 * (v / 256 % 256 ^ k) := by simp [toLeBytes, fromLeBytes, ih]
        _ = v % 256 ^ (k+1) := by
            rw [pow_succ, mul_comm (256 ^ k) 256, Nat.mod_mul]

theorem fromBeBytes_toBeBytes (n v : Nat) :
    fromBeBytes (toBeBytes n v) = v % 256 ^ n := by
  simp [fromBeBytes, toBeBytes, fromLeBytes_toLeBytes]

theorem fromLeBytes_toLeBytes_of_lt {n v : Nat} (h : v < 256 ^ n) :
    fromLeBytes (toLeBytes n v) = v := by
  rw [fromLeBytes_toLeBytes, Nat.mod_eq_of_lt h]

theorem fromBeBytes_toBeBytes_of_lt {n v : Nat} (h : v < 256 ^ n) :
    fromBeBytes (toBeBytes n v) = v := by
  rw [fromBeBytes_toBeBytes, Nat.mod_eq_of_lt h]

/-- Checked slice `l[i..j]`, `none` when the bounds overrun (a Rust panic). -/
def sliceChecked (l : List Nat) (i j : Nat) : Option (List Nat) :=
  if i ≤ j ∧ j ≤ l.length then some ((l.drop i).take (j - i)) else none

theorem sliceChecked_eq {l : List Nat} {i j : Nat} (h1 : i ≤ j) (h2 : j ≤ l.length) :
    sliceChecked l i j = some ((l.drop i).take (j - i)) := by
  simp [sliceChecked, h1, h2]

/-- The transaction type nibble (`TxType`). -/
inductive TxType
  | PaymentToOther
  | PaymentToSelf
  | Burn
  | CoinSplit
  | CoinJoin
  | ValidatorNodeRegistration
  | ClaimAtomicSwap
  | HtlcAtomicSwapRefund
  | CodeTemplateRegistration
  | ImportedUtxoNoneRewindable
deriving DecidableEq

/-- Mirrors `TxType::from_u16`: dispatch on the low nibble, defaulting to
`PaymentToOther`. -/
def TxType.from_u16 (value : Nat) : TxType :=
  match value &&& 15 with
  | 0 => .PaymentToOther
  | 1 => .PaymentToSelf
  | 2 => .Burn
  | 3 => .CoinSplit
  | 4 => .CoinJoin
  | 5 => .ValidatorNodeRegistration
  | 6 => .ClaimAtomicSwap
  | 7 => .HtlcAtomicSwapRefund
  | 8 => .CodeTemplateRegistration
  | 9 => .ImportedUtxoNoneRewindable
  | _ => .PaymentToOther

/-- Mirrors `TxType::from_u8`. -/
def TxType.from_u8 (value : Nat) : TxType := TxType.from_u16 value

/-- Mirrors `TxType::as_u8`. -/
def TxType.as_u8 : TxType → Nat
  | .PaymentToOther => 0
  | .PaymentToSelf => 1
  | .Burn => 2
  | .CoinSplit => 3
  | .CoinJoin => 4
  | .ValidatorNodeRegistration => 5
  | .ClaimAtomicSwap => 6
  | .HtlcAtomicSwapRefund => 7
  | .CodeTemplateRegistration => 8
  | .ImportedUtxoNoneRewindable => 9

/-- Mirrors `TxType::as_bytes`. -/
def TxType.as_bytes (t : TxType) : List Nat := [t.as_u8]

theorem TxType.as_u8_lt (t : TxType) : t.as_u8 < 16 := by cases t <;> decide

theorem TxType.from_u8_as_u8 (t : TxType) : TxType.from_u8 t.as_u8 = t := by
  cases t <;> decide

theorem TxType.from_u16_as_u8 (t : TxType) : TxType.from_u16 t.as_u8 = t := by
  cases t <;> decide

/-- Modelled from the spec: a Tari address is an opaque byte blob with exactly
two legal sizes provided by the external address module; the module itself is
not in the source slice. -/
structure TariAddress where
  bytes : List Nat
deriving DecidableEq

/-- Mirrors `TariAddress::get_size`. -/
def TariAddress.get_size (a : TariAddress) : Nat := a.bytes.length

/-- Mirrors `TariAddress::to_vec`. -/
def TariAddress.to_vec (a : TariAddress) : List Nat := a.bytes

/-- Modelled from the spec: `TariAddress::from_bytes` is "infallible on length
and fallible on content" with the two legal sizes `ssingle` and `sdual`; the
content check `ok` (network, features and checksum validation in the external
module) is kept abstract as a parameter. -/
def TariAddress.from_bytes (ssingle sdual : Nat) (ok : List Nat → Bool)
    (b : List Nat) : Option TariAddress :=
  if (b.length = ssingle ∨ b.length = sdual) ∧ ok b = true then some ⟨b⟩ else none

/-- The result of `PaymentId::unpack_meta_data`, with the six components of the
Rust tuple as named fields, in order. -/
structure UnpackedMeta where
  fee : Nat
  weight : Nat
  inputs_count : Nat
  outputs_count : Nat
  sender_one_sided : Bool
  tx_type : TxType
deriving DecidableEq

/-- The `PaymentId` variant. `MicroMinotari`, `u64` and `usize` fields are
`Nat`; `U256` holds its value as a `Nat` below `2 ^ 256`. -/
inductive PaymentId
  | Empty
  | U64 (v : Nat)
  | U256 (v : Nat)
  | Open (user_data : List Nat) (tx_type : TxType)
  | AddressAndData (sender_address : TariAddress) (tx_type : TxType) (user_data : List Nat)
  | TransactionInfo (recipient_address : TariAddress) (sender_one_sided : Bool)
      (amount fee weight inputs_count outputs_count : Nat)
      (tx_type : TxType) (user_data : List Nat)
deriving DecidableEq

/-- Packing core shared by `PaymentId::pack_meta_data` and `PaymentId::to_bytes`:
zero each out-of-range field, then emit the 10 bytes
`fee(4, BE) ‖ weight(2, BE) ‖ inputs_count/sender_one_sided(2, BE) ‖
outputs_count/tx_type(2, BE)`. -/
def packMetaCore (sender_one_sided : Bool) (fee weight inputs_count outputs_count : Nat)
    (tx_type : TxType) : List Nat :=
  let fee' := if fee > 2 ^ 32 - 1 then 0 else fee
  let weight' := if weight > 2 ^ 16 - 1 then 0 else weight
  let inputs' := if inputs_count > 2 ^ 15 - 1 then 0 else inputs_count
  let outputs' := if outputs_count > 2 ^ 12 - 1 then 0 else outputs_count
  let inputs_count_packed :=
    (inputs' &&& 0b0111111111111111) ||| ((if sender_one_sided then 1 else 0) <<< 15)
  let outputs_count_packed :=
    (outputs' &&& 0b0000111111111111) ||| (tx_type.as_u8 <<< 12)
  toBeBytes 4 fee' ++ toBeBytes 2 weight' ++ toBeBytes 2 inputs_count_packed ++
    toBeBytes 2 outputs_count_packed

/-- Mirrors `PaymentId::pack_meta_data`: the empty list for every variant other
than `TransactionInfo`. -/
def PaymentId.pack_meta_data : PaymentId → List Nat
  | .TransactionInfo _ sender_one_sided _ fee weight inputs_count outputs_count tx_type _ =>
      packMetaCore sender_one_sided fee weight inputs_count outputs_count tx_type
  | _ => []

/-- Mirrors `PaymentId::unpack_meta_data` on the 10-byte metadata block. -/
def PaymentId.unpack_meta_data (bytes : List Nat) : UnpackedMeta :=
  let fee := fromBeBytes [bytes.getD 0 0, bytes.getD 1 0, bytes.getD 2 0, bytes.getD 3 0]
  let weight := fromBeBytes [bytes.getD 4 0, bytes.getD 5 0]
  let inputs_count_packed := fromBeBytes [bytes.getD 6 0, bytes.getD 7 0]
  let inputs_count := inputs_count_packed &&& 0b0111111111111111
  let sender_one_sided := (inputs_count_packed &&& 0b1000000000000000) ≠ 0
  let outputs_count_packed := fromBeBytes [bytes.getD 8 0, bytes.getD 9 0]
  let outputs_count := outputs_count_packed &&& 0b0000111111111111
  let tx_type := TxType.from_u16 ((outputs_count_packed &&& 0b1111000000000000) >>> 12)
  ⟨fee, weight, inputs_count, outputs_count, decide sender_one_sided, tx_type⟩

/-- Mirrors `PaymentId::get_size`. -/
def PaymentId.get_size : PaymentId → Nat
  | .Empty => 0
  | .U64 _ => 8
  | .U256 _ => 32
  | .Open user_data _ => user_data.length + 1
  | .AddressAndData sender_address _ user_data =>
      sender_address.get_size + user_data.length + 1
  | .TransactionInfo recipient_address _ _ _ _ _ _ _ user_data =>
      recipient_address.get_size + 18 + user_data.length

/-- Mirrors `PaymentId::to_bytes`. -/
def PaymentId.to_bytes : PaymentId → List Nat
  | .Empty => []
  | .U64 v => toLeBytes 8 v
  | .U256 v => toLeBytes 32 v
  | .Open user_data tx_type => tx_type.as_u8 :: user_data
  | .AddressAndData sender_address tx_type user_data =>
      sender_address.to_vec ++ tx_type.as_bytes ++ user_data
  | .TransactionInfo recipient_address sender_one_sided amount fee weight inputs_count
      outputs_count tx_type user_data =>
      toLeBytes 8 amount ++
        packMetaCore sender_one_sided fee weight inputs_count outputs_count tx_type ++
        recipient_address.to_vec ++ user_data

theorem packMetaCore_length (s : Bool) (f w i o : Nat) (t : TxType) :
    (packMetaCore s f w i o t).length = 10 := by
  simp [packMetaCore, toBeBytes_length]

theorem PaymentId.to_bytes_length (p : PaymentId) : p.to_bytes.length = p.get_size := by
  cases p <;>
    simp [PaymentId.to_bytes, PaymentId.get_size, toLeBytes_length, packMetaCore_length,
      TariAddress.get_size, TariAddress.to_vec, TxType.as_bytes] <;> omega

/-- The `PaymentId::Open` construction shared by the `len <= single` arm and the
final fallback of `PaymentId::from_bytes` (`none` only when the input is empty,
where Rust would panic on `bytes[0]`). -/
def openFallback (bytes : List Nat) : Option PaymentId :=
  match bytes[0]? with
  | none => none
  | some b0 =>
      some (.Open (if 1 < bytes.length then bytes.drop 1 else []) (TxType.from_u8 b0))

/-- One `AddressAndData` probe of `PaymentId::from_bytes`: when the input is
longer than `sz`, try to decode its first `sz` bytes as an address and on
success consume one transaction-type byte and the rest as user data. Outer
`none` is a Rust panic; `some none` means the probe fell through. -/
def aadProbe (ssingle sdual : Nat) (ok : List Nat → Bool) (bytes : List Nat) (sz : Nat) :
    Option (Option PaymentId) :=
  if sz < bytes.length then
    match sliceChecked bytes 0 sz with
    | none => none
    | some pre =>
      match TariAddress.from_bytes ssingle sdual ok pre with
      | none => some none
      | some sender_address =>
        match bytes[sz]?, sliceChecked bytes (sz + 1) bytes.length with
        | some t, some user_data =>
            some (some (.AddressAndData sender_address (TxType.from_u8 t) user_data))
        | _, _ => none
  else some none

/-- One `TransactionInfo` probe of `PaymentId::from_bytes`: when the input is
longer than `18 + sz`, try bytes `18 .. 18 + sz` as an address, the rest as
user data. -/
def tiProbe (ssingle sdual : Nat) (ok : List Nat → Bool) (bytes : List Nat)
    (amount : Nat) (m : UnpackedMeta) (sz : Nat) : Option (Option PaymentId) :=
  if 18 + sz < bytes.length then
    match sliceChecked bytes 18 (18 + sz) with
    | none => none
    | some pre =>
      match TariAddress.from_bytes ssingle sdual ok pre with
      | none => some none
      | some recipient_address =>
        match sliceChecked bytes (18 + sz) bytes.length with
        | none => none
        | some user_data =>
            some (some (.TransactionInfo recipient_address m.sender_one_sided amount
              m.fee m.weight m.inputs_count m.outputs_count m.tx_type user_data))
  else some none

/-- The final `match` arm of `PaymentId::from_bytes` (inputs longer than the
single-address size and not of length 0, 8 or 32): dual then single
`AddressAndData` probes, then the three `TransactionInfo` attempts, then the
`Open` fallback. -/
def fromBytesElse (ssingle sdual : Nat) (ok : List Nat → Bool) (bytes : List Nat) :
    Option PaymentId :=
  match aadProbe ssingle sdual ok bytes sdual with
  | none => none
  | some (some p) => some p
  | some none =>
    match aadProbe ssingle sdual ok bytes ssingle with
    | none => none
    | some (some p) => some p
    | some none =>
      match sliceChecked bytes 0 8, sliceChecked bytes 8 18 with
      | some ab, some mb =>
        let amount := fromLeBytes ab
        let m := PaymentId.unpack_meta_data mb
        match sliceChecked bytes 18 bytes.length with
        | none => none
        | some tail =>
          match TariAddress.from_bytes ssingle sdual ok tail with
          | some recipient_address =>
              some (.TransactionInfo recipient_address m.sender_one_sided amount m.fee
                m.weight m.inputs_count m.outputs_count m.tx_type [])
          | none =>
            match tiProbe ssingle sdual ok bytes amount m sdual with
            | none => none
            | some (some p) => some p
            | some none =>
              match tiProbe ssingle sdual ok bytes amount m ssingle with
              | none => none
              | some (some p) => some p
              | some none => openFallback bytes
      | _, _ => none

/-- Mirrors `PaymentId::from_bytes`, parameterised by the external address
sizes and content check; `none` models a Rust panic (an out-of-bounds slice),
which under the documented size assumptions never occurs. -/
def PaymentId.from_bytes (ssingle sdual : Nat) (ok : List Nat → Bool)
    (bytes : List Nat) : Option PaymentId :=
  if bytes.length = 0 then some .Empty
  else if bytes.length = 8 then some (.U64 (fromLeBytes bytes))
  else if bytes.length = 32 then some (.U256 (fromLeBytes bytes))
  else if bytes.length ≤ ssingle then openFallback bytes
  else fromBytesElse ssingle sdual ok bytes

/-- Useful size constants of `encrypted_data.rs`, each in bytes. -/
def SIZE_NONCE : Nat := 24

def SIZE_VALUE : Nat := 8

def SIZE_MASK : Nat := 32

def SIZE_TAG : Nat := 16

def STATIC_ENCRYPTED_DATA_SIZE_TOTAL : Nat := SIZE_NONCE + SIZE_VALUE + SIZE_MASK + SIZE_TAG

def MAX_ENCRYPTED_DATA_SIZE : Nat := 256 + STATIC_ENCRYPTED_DATA_SIZE_TOTAL

/-- The AEAD associated data `ENCRYPTED_DATA_AAD`, as ASCII byte values. -/
def ENCRYPTED_DATA_AAD : List Nat :=
  ("TARI_AAD_VALUE_AND_MASK_EXTEND_NONCE_VARIANT").data.map Char.toNat

/-- Modelled from the spec: the order of the scalar field of the external
curve, bounding canonical 32-byte scalars. -/
def scalarOrder : Nat := 2 ^ 252 + 27742317777372353535851937790883648493

/-- Modelled from the spec: a `PrivateKey` is a 32-byte canonical scalar from
the external crypto module, kept as its byte encoding. -/
structure PrivateKey where
  bytes : List Nat
deriving DecidableEq

/-- Modelled from the spec: the canonicity check of `from_canonical_bytes`:
32 bytes whose little-endian value lies below the scalar order. -/
def canonicalScalarBytes (b : List Nat) : Bool :=
  b.length == 32 && b.all (fun x => x < 256) && fromLeBytes b < scalarOrder

/-- Modelled from the spec: `PrivateKey::from_canonical_bytes`, failing on a
non-canonical encoding. -/
def PrivateKey.from_canonical_bytes (b : List Nat) : Option PrivateKey :=
  if canonicalScalarBytes b then some ⟨b⟩ else none

/-- Modelled from the spec: the byte at position `i` of the XChaCha20 keystream
for a given key and nonce; the cipher internals are external, so an arbitrary
fixed executable pseudorandom function stands in for them. -/
def keystreamByte (key nonce : List Nat) (i : Nat) : Nat :=
  (key.foldl (fun a b => a * 31 + b) 7 + nonce.foldl (fun a b => a * 131 + b) 11 + 97 * i) % 256

/-- XOR a buffer against the keystream starting at position `i`; both
encryption and decryption of the stream cipher are this operation. -/
def xorKs (key nonce : List Nat) : Nat → List Nat → List Nat
  | _, [] => []
  | i, b :: t => (b ^^^ keystreamByte key nonce i) :: xorKs key nonce (i + 1) t

/-- Modelled from the spec: the Poly1305 authentication tag over
(key, nonce, aad, ciphertext), 16 bytes; the MAC internals are external, so an
arbitrary fixed executable function stands in for them. -/
def polyTag (key nonce aad ct : List Nat) : List Nat :=
  toLeBytes 16
    ((key ++ nonce ++ aad ++ ct).foldl (fun a b => (a * 257 + b + 1) % 2 ^ 128) 0)

/-- Modelled from the spec: `kdf_aead`, a 32-byte key from the domain-separated
Blake2b-256 hash of the encryption key and the commitment; the hash internals
are external, so an arbitrary fixed executable function stands in for them. -/
def kdf_aead (encryption_key commitment : List Nat) : List Nat :=
  toLeBytes 32
    ((("TransactionSecureNonceKdfDomain.encrypted_value_and_mask").data.map Char.toNat
        ++ encryption_key ++ commitment).foldl (fun a b => (a * 263 + b + 3) % 2 ^ 256) 5)

/-- The encrypted payload: `tag ‖ nonce ‖ ciphertext`. -/
structure EncryptedData where
  data : List Nat
deriving DecidableEq

/-- The error kinds of `EncryptedDataError`. -/
inductive EncryptedDataError
  | EncryptionFailed
  | ByteArrayError (msg : String)
  | IncorrectLength (msg : String)
deriving DecidableEq

/-- Mirrors `EncryptedData::encrypt_data`, with the random 24-byte nonce passed
in explicitly (the spec allows the caller to substitute the RNG): lay out
`value(8, LE) ‖ mask(32) ‖ payment_id`, seal it with the KDF-derived key, emit
`tag ‖ nonce ‖ ciphertext`, and fail with `IncorrectLength` when the result
exceeds `MAX_ENCRYPTED_DATA_SIZE`. -/
def EncryptedData.encrypt_data (encryption_key commitment : List Nat) (value : Nat)
    (mask : PrivateKey) (payment_id : PaymentId) (nonce : List Nat) :
    Except EncryptedDataError EncryptedData :=
  let bytes := toLeBytes 8 value ++ mask.bytes ++ payment_id.to_bytes
  let aead_key := kdf_aead encryption_key commitment
  let ct := xorKs aead_key nonce 0 bytes
  let tag := polyTag aead_key nonce ENCRYPTED_DATA_AAD ct
  let data := tag ++ nonce ++ ct
  if data.length ≤ MAX_ENCRYPTED_DATA_SIZE then .ok ⟨data⟩
  else .error (.IncorrectLength ("Data too long"))

/-- Mirrors `EncryptedData::decrypt_data`: split `tag ‖ nonce ‖ ciphertext`,
authenticate, decrypt, then parse value, mask and payment id. The outer
`Option` models a Rust panic on an out-of-bounds slice (never reached for
well-formed payloads); the inner `Except` is the Rust `Result`. -/
def EncryptedData.decrypt_data (ssingle sdual : Nat) (ok : List Nat → Bool)
    (encryption_key commitment : List Nat) (encrypted_data : EncryptedData) :
    Option (Except EncryptedDataError (Nat × PrivateKey × PaymentId)) :=
  match sliceChecked encrypted_data.data 0 SIZE_TAG,
      sliceChecked encrypted_data.data SIZE_TAG (SIZE_TAG + SIZE_NONCE),
      sliceChecked encrypted_data.data (SIZE_TAG + SIZE_NONCE) encrypted_data.data.length with
  | some tag, some nonce, some ct =>
    let aead_key := kdf_aead encryption_key commitment
    if polyTag aead_key nonce ENCRYPTED_DATA_AAD ct = tag then
      let bytes := xorKs aead_key nonce 0 ct
      match sliceChecked bytes 0 SIZE_VALUE,
          sliceChecked bytes SIZE_VALUE (SIZE_VALUE + SIZE_MASK),
          sliceChecked bytes (SIZE_VALUE + SIZE_MASK) bytes.length with
      | some value_bytes, some mask_bytes, some pid_bytes =>
        match PrivateKey.from_canonical_bytes mask_bytes with
        | none => some (.error (.ByteArrayError ("Conversion failed")))
        | some mask =>
          match PaymentId.from_bytes ssingle sdual ok pid_bytes with
          | none => none
          | some payment_id => some (.ok (fromLeBytes value_bytes, mask, payment_id))
      | _, _, _ => none
    else some (.error .EncryptionFailed)
  | _, _, _ => none

/-- Mirrors `EncryptedData::from_bytes`: at least the static size, at most the
maximum payload size. -/
def EncryptedData.from_bytes (bytes : List Nat) : Except EncryptedDataError EncryptedData :=
  if bytes.length < STATIC_ENCRYPTED_DATA_SIZE_TOTAL then
    .error (.IncorrectLength ("Expected bytes to be at least 80"))
  else if bytes.length ≤ MAX_ENCRYPTED_DATA_SIZE then .ok ⟨bytes⟩
  else .error (.IncorrectLength ("Data too long"))

/-- Mirrors `EncryptedData::to_byte_vec` / `as_bytes`. -/
def EncryptedData.to_byte_vec (e : EncryptedData) : List Nat := e.data

/-- Mirrors `impl Default for EncryptedData`. -/
def EncryptedData.default : EncryptedData :=
  ⟨List.replicate STATIC_ENCRYPTED_DATA_SIZE_TOTAL 0⟩

/-- Mirrors `EncryptedData::get_payment_id_size` (`saturating_sub`, which is
exactly `Nat` subtraction). -/
def EncryptedData.get_payment_id_size (e : EncryptedData) : Nat :=
  e.data.length - STATIC_ENCRYPTED_DATA_SIZE_TOTAL

/-- Modelled from the spec: the lowercase hex digit (as an ASCII code) of a
value below 16, as emitted by `tari_utilities::hex::to_hex`. -/
def hexDigit (n : Nat) : Nat := if n < 10 then 48 + n else 87 + n

/-- Modelled from the spec: `tari_utilities::hex::to_hex`, two lowercase
digits per byte, no prefix. -/
def toHexChars (bytes : List Nat) : List Nat :=
  (bytes.map (fun b => [hexDigit (b / 16), hexDigit (b % 16)])).flatten

/-- Modelled from the spec: the value of one hex digit (either case). -/
def hexVal (c : Nat) : Option Nat :=
  if 48 ≤ c ∧ c ≤ 57 then some (c - 48)
  else if 97 ≤ c ∧ c ≤ 102 then some (c - 87)
  else if 65 ≤ c ∧ c ≤ 70 then some (c - 55)
  else none

/-- Modelled from the spec: `tari_utilities::hex::from_hex`, failing on an odd
length or a non-hex character. -/
def fromHexChars : List Nat → Option (List Nat)
  | [] => some []
  | [_] => none
  | c1 :: c2 :: rest =>
      match hexVal c1, hexVal c2, fromHexChars rest with
      | some h, some l, some r => some ((16 * h + l) :: r)
      | _, _, _ => none

/-- Mirrors `impl Hex for EncryptedData`: `to_hex`. -/
def EncryptedData.to_hex (e : EncryptedData) : List Nat := toHexChars e.to_byte_vec

/-- Mirrors `impl Hex for EncryptedData`: `from_hex`, decoding hex then
validating the length bounds. -/
def EncryptedData.from_hex (s : List Nat) : Option EncryptedData :=
  match fromHexChars s with
  | none => none
  | some v =>
    match EncryptedData.from_bytes v with
    | .ok e => some e
    | .error _ => none

theorem sliceChecked_prefix {l1 : List Nat} (l2 : List Nat) {n : Nat}
    (h : l1.length = n) : sliceChecked (l1 ++ l2) 0 n = some l1 := by
  rw [sliceChecked, if_pos (by simp [List.length_append]; omega)]
  simp [List.take_left' h]

theorem sliceChecked_prefix3 {l1 : List Nat} (l2 l3 : List Nat) {n : Nat}
    (h : l1.length = n) : sliceChecked (l1 ++ l2 ++ l3) 0 n = some l1 := by
  rw [List.append_assoc]
  exact sliceChecked_prefix _ h

theorem sliceChecked_suffix {l1 : List Nat} (l2 : List Nat) {n : Nat}
    (h : l1.length = n) : sliceChecked (l1 ++ l2) n (l1 ++ l2).length = some l2 := by
  rw [sliceChecked, if_pos (⟨by simp [List.length_append]; omega, le_refl _⟩ :
    n ≤ (l1 ++ l2).length ∧ (l1 ++ l2).length ≤ (l1 ++ l2).length)]
  rw [List.drop_left' h]
  have hl : (l1 ++ l2).length - n = l2.length := by simp [List.length_append]; omega
  rw [hl, List.take_length]

theorem sliceChecked_mid {l1 l2 : List Nat} (l3 : List Nat) {i j : Nat}
    (h1 : l1.length = i) (h2 : i + l2.length = j) :
    sliceChecked (l1 ++ l2 ++ l3) i j = some l2 := by
  rw [sliceChecked, if_pos (by simp [List.length_append]; omega)]
  rw [List.append_assoc, List.drop_left' h1]
  have : j - i = l2.length := by omega
  rw [this, List.take_left]

theorem and_shiftLeft_mask (x m k : Nat) :
    x &&& (m <<< k) = ((x >>> k) &&& m) <<< k := by
  apply Nat.eq_of_testBit_eq
  intro j
  simp only [Nat.testBit_and, Nat.testBit_shiftLeft, Nat.testBit_shiftRight]
  by_cases h : k ≤ j
  · have : k + (j - k) = j := by omega
    simp [h, this, Bool.and_comm, Bool.and_left_comm]
  · simp [h]

theorem or_high_low {low hi k : Nat} (hlow : low < 2 ^ k) :
    low ||| (hi <<< k) = 2 ^ k * hi + low := by
  rw [Nat.shiftLeft_eq, Nat.lor_comm, mul_comm hi (2 ^ k)]
  exact (Nat.mul_add_lt_is_or hlow hi).symm

theorem unpack_meta_blocks (A B C D : List Nat) (hA : A.length = 4) (hB : B.length = 2)
    (hC : C.length = 2) (hD : D.length = 2) :
    PaymentId.unpack_meta_data (A ++ B ++ C ++ D) =
      ⟨fromBeBytes A, fromBeBytes B, fromBeBytes C &&& 32767, fromBeBytes D &&& 4095,
        decide ((fromBeBytes C &&& 32768) ≠ 0),
        TxType.from_u16 ((fromBeBytes D &&& 61440) >>> 12)⟩ := by
  match A, B, C, D, hA, hB, hC, hD with
  | [a0, a1, a2, a3], [b0, b1], [c0, c1], [d0, d1], _, _, _, _ => rfl

theorem and_mask15_of_lt {u : Nat} (h : u < 16) : u &&& 15 = u := by
  have h15 : (15 : Nat) = 2 ^ 4 - 1 := by norm_num
  rw [h15, Nat.and_pow_two_sub_one_eq_mod, Nat.mod_eq_of_lt h]

theorem unpack_packMetaCore (sos : Bool) (fee weight inputs_count outputs_count : Nat)
    (t : TxType) :
    PaymentId.unpack_meta_data (packMetaCore sos fee weight inputs_count outputs_count t) =
      ⟨if fee > 2 ^ 32 - 1 then 0 else fee, if weight > 2 ^ 16 - 1 then 0 else weight,
        if inputs_count > 2 ^ 15 - 1 then 0 else inputs_count,
        if outputs_count > 2 ^ 12 - 1 then 0 else outputs_count, sos, t⟩ := by
  rw [packMetaCore]
  set f := if fee > 2 ^ 32 - 1 then 0 else fee with hf
  set w := if weight > 2 ^ 16 - 1 then 0 else weight with hw
  set ic := if inputs_count > 2 ^ 15 - 1 then 0 else inputs_count with hic
  set oc := if outputs_count > 2 ^ 12 - 1 then 0 else outputs_count with hoc
  set sn : Nat := if sos then 1 else 0 with hsn
  have hfb : f < 2 ^ 32 := by rw [hf]; split <;> omega
  have hwb : w < 2 ^ 16 := by rw [hw]; split <;> omega
  have hicb : ic < 2 ^ 15 := by rw [hic]; split <;> omega
  have hocb : oc < 2 ^ 12 := by rw [hoc]; split <;> omega
  have hsnb : sn ≤ 1 := by rw [hsn]; split <;> omega
  have htb : t.as_u8 < 16 := t.as_u8_lt
  have hic' : ic &&& 32767 = ic := by
    have h15 : (32767 : Nat) = 2 ^ 15 - 1 := by norm_num
    rw [h15, Nat.and_pow_two_sub_one_eq_mod, Nat.mod_eq_of_lt hicb]
  have hoc' : oc &&& 4095 = oc := by
    have h12 : (4095 : Nat) = 2 ^ 12 - 1 := by norm_num
    rw [h12, Nat.and_pow_two_sub_one_eq_mod, Nat.mod_eq_of_lt hocb]
  have hip : (ic &&& 32767) ||| (sn <<< 15) = 2 ^ 15 * sn + ic := by
    rw [hic']; exact or_high_low hicb
  have hop : (oc &&& 4095) ||| (t.as_u8 <<< 12) = 2 ^ 12 * t.as_u8 + oc := by
    rw [hoc']; exact or_high_low hocb
  rw [hip, hop,
    unpack_meta_blocks _ _ _ _ (toBeBytes_length 4 f) (toBeBytes_length 2 w)
      (toBeBytes_length 2 _) (toBeBytes_length 2 _),
    fromBeBytes_toBeBytes_of_lt (by norm_num at hfb ⊢; omega),
    fromBeBytes_toBeBytes_of_lt (by norm_num at hwb ⊢; omega),
    fromBeBytes_toBeBytes_of_lt (show 2 ^ 15 * sn + ic < 256 ^ 2 by norm_num; omega),
    fromBeBytes_toBeBytes_of_lt (show 2 ^ 12 * t.as_u8 + oc < 256 ^ 2 by norm_num; omega)]
  have hCmask : (2 ^ 15 * sn + ic) &&& 32767 = ic := by
    have h15 : (32767 : Nat) = 2 ^ 15 - 1 := by norm_num
    rw [h15, Nat.and_pow_two_sub_one_eq_mod]
    omega
  have hCbit : decide (((2 ^ 15 * sn + ic) &&& 32768) ≠ 0) = sos := by
    have h15 : (32768 : Nat) = 2 ^ 15 := by norm_num
    rw [h15, Nat.and_two_pow, Nat.testBit_to_div_mod]
    have hdiv : (2 ^ 15 * sn + ic) / 2 ^ 15 = sn := by omega
    rw [hdiv]
    rcases sos with _ | _ <;> simp [hsn]
  have hDmask : (2 ^ 12 * t.as_u8 + oc) &&& 4095 = oc := by
    have h12 : (4095 : Nat) = 2 ^ 12 - 1 := by norm_num
    rw [h12, Nat.and_pow_two_sub_one_eq_mod]
    omega
  have hDtx : TxType.from_u16 (((2 ^ 12 * t.as_u8 + oc) &&& 61440) >>> 12) = t := by
    have h61440 : (61440 : Nat) = 15 <<< 12 := by norm_num [Nat.shiftLeft_eq]
    rw [h61440, and_shiftLeft_mask, Nat.shiftLeft_eq, Nat.shiftRight_eq_div_pow,
      Nat.mul_div_cancel _ (by norm_num : (0:Nat) < 2 ^ 12), Nat.shiftRight_eq_div_pow]
    have hdiv : (2 ^ 12 * t.as_u8 + oc) / 2 ^ 12 = t.as_u8 := by omega
    rw [hdiv, and_mask15_of_lt htb, TxType.from_u16_as_u8]
  rw [hCmask, hCbit, hDmask, hDtx]

theorem openFallback_as_u8 (t : TxType) (ud : List Nat) :
    openFallback (t.as_u8 :: ud) = some (.Open ud t) := by
  cases ud with
  | nil => simp [openFallback, TxType.from_u8_as_u8]
  | cons a l => simp [openFallback, TxType.from_u8_as_u8]

theorem addr_from_bytes_ok {ssingle sdual : Nat} {ok : List Nat → Bool} {b : List Nat}
    (hlen : b.length = ssingle ∨ b.length = sdual) (hok : ok b = true) :
    TariAddress.from_bytes ssingle sdual ok b = some ⟨b⟩ := by
  simp [TariAddress.from_bytes, hlen, hok]

theorem addr_from_bytes_fail_ok {ssingle sdual : Nat} {ok : List Nat → Bool} {b : List Nat}
    (hok : ok b = false) : TariAddress.from_bytes ssingle sdual ok b = none := by
  simp [TariAddress.from_bytes, hok]

theorem addr_from_bytes_fail_len {ssingle sdual : Nat} {ok : List Nat → Bool} {b : List Nat}
    (h1 : b.length ≠ ssingle) (h2 : b.length ≠ sdual) :
    TariAddress.from_bytes ssingle sdual ok b = none := by
  simp [TariAddress.from_bytes, h1, h2]

theorem aadProbe_success {ssingle sdual : Nat} {ok : List Nat → Bool} {bytes pre ud : List Nat}
    {u sz : Nat} {addr : TariAddress} (hb : bytes = pre ++ u :: ud) (hpre : pre.length = sz)
    (haddr : TariAddress.from_bytes ssingle sdual ok pre = some addr) :
    aadProbe ssingle sdual ok bytes sz =
      some (some (.AddressAndData addr (TxType.from_u8 u) ud)) := by
  subst hb
  have hguard : sz < (pre ++ u :: ud).length := by simp [List.length_append]; omega
  have hget : (pre ++ u :: ud)[sz]? = some u := by
    rw [← hpre, List.getElem?_append_right (le_refl _)]
    simp
  have hrest : sliceChecked (pre ++ u :: ud) (sz + 1) (pre ++ u :: ud).length = some ud := by
    rw [List.append_cons pre u ud]
    exact sliceChecked_suffix ud (by simp [List.length_append]; omega)
  simp only [aadProbe, if_pos hguard, sliceChecked_prefix _ hpre, haddr, hget, hrest]

theorem aadProbe_fall {ssingle sdual : Nat} {ok : List Nat → Bool} {bytes : List Nat}
    {sz : Nat} (h : sz < bytes.length → ok (bytes.take sz) = false) :
    aadProbe ssingle sdual ok bytes sz = some none := by
  by_cases hguard : sz < bytes.length
  · have hslice : sliceChecked bytes 0 sz = some (bytes.take sz) := by
      rw [sliceChecked, if_pos ⟨Nat.zero_le sz, by omega⟩]
      simp
    simp only [aadProbe, if_pos hguard, hslice, addr_from_bytes_fail_ok (h hguard)]
  · rw [aadProbe, if_neg hguard]

theorem tiProbe_success {ssingle sdual : Nat} {ok : List Nat → Bool}
    {bytes pre18 addrB ud : List Nat} {sz amount : Nat} {m : UnpackedMeta}
    {addr : TariAddress} (hb : bytes = pre18 ++ addrB ++ ud) (h18 : pre18.length = 18)
    (hsz : addrB.length = sz) (hud : ud ≠ [])
    (haddr : TariAddress.from_bytes ssingle sdual ok addrB = some addr) :
    tiProbe ssingle sdual ok bytes amount m sz =
      some (some (.TransactionInfo addr m.sender_one_sided amount m.fee m.weight
        m.inputs_count m.outputs_count m.tx_type ud)) := by
  subst hb
  have hudl : 0 < ud.length := by cases ud with
    | nil => exact absurd rfl hud
    | cons a l => simp
  have hguard : 18 + sz < (pre18 ++ addrB ++ ud).length := by
    simp [List.length_append]; omega
  have hrest : sliceChecked (pre18 ++ addrB ++ ud) (18 + sz)
      (pre18 ++ addrB ++ ud).length = some ud :=
    sliceChecked_suffix ud (by simp [List.length_append]; omega)
  have hmid : sliceChecked (pre18 ++ addrB ++ ud) 18 (18 + sz) = some addrB :=
    sliceChecked_mid ud h18 (by omega)
  simp only [tiProbe, if_pos hguard, hmid, haddr, hrest]

theorem tiProbe_fall {ssingle sdual : Nat} {ok : List Nat → Bool} {bytes : List Nat}
    {sz amount : Nat} {m : UnpackedMeta}
    (h : 18 + sz < bytes.length → ok ((bytes.drop 18).take sz) = false) :
    tiProbe ssingle sdual ok bytes amount m sz = some none := by
  by_cases hguard : 18 + sz < bytes.length
  · have hslice : sliceChecked bytes 18 (18 + sz) = some ((bytes.drop 18).take sz) := by
      rw [sliceChecked, if_pos ⟨by omega, by omega⟩]
      have hs : 18 + sz - 18 = sz := by omega
      rw [hs]
    simp only [tiProbe, if_pos hguard, hslice, addr_from_bytes_fail_ok (h hguard)]
  · rw [tiProbe, if_neg hguard]

/-- Side conditions under which the encoding of a `TransactionInfo` payment id
is decoded back by the length-heuristic decoder: the amount fits a `u64`, the
address is well formed, and no earlier address probe on the encoding spuriously
succeeds. -/
def tiCond (ssingle sdual : Nat) (ok : List Nat → Bool) (a : TariAddress) (sos : Bool)
    (amount fee weight ic oc : Nat) (t : TxType) (ud : List Nat) : Prop :=
  amount < 2 ^ 64 ∧ ok a.bytes = true ∧
    (a.bytes.length = ssingle ∨ a.bytes.length = sdual) ∧
    (sdual < (PaymentId.TransactionInfo a sos amount fee weight ic oc t ud).to_bytes.length →
      ok ((PaymentId.TransactionInfo a sos amount fee weight ic oc t
        ud).to_bytes.take sdual) = false) ∧
    ok ((PaymentId.TransactionInfo a sos amount fee weight ic oc t
      ud).to_bytes.take ssingle) = false ∧
    (ud ≠ [] ∧ a.bytes.length + ud.length = sdual → ok (a.bytes ++ ud) = false) ∧
    (a.bytes.length = ssingle ∧ sdual < a.bytes.length + ud.length →
      ok ((a.bytes ++ ud).take sdual) = false)

instance (ssingle sdual : Nat) (ok : List Nat → Bool) (a : TariAddress) (sos : Bool)
    (amount fee weight ic oc : Nat) (t : TxType) (ud : List Nat) :
    Decidable (tiCond ssingle sdual ok a sos amount fee weight ic oc t ud) := by
  unfold tiCond
  infer_instance

theorem ti_decode {ssingle sdual : Nat} {ok : List Nat → Bool} (h1 : 32 < ssingle)
    (h2 : ssingle < sdual) (a : TariAddress) (sos : Bool) (amount fee weight ic oc : Nat)
    (t : TxType) (ud : List Nat)
    (hc : tiCond ssingle sdual ok a sos amount fee weight ic oc t ud) :
    PaymentId.from_bytes ssingle sdual ok
        (PaymentId.TransactionInfo a sos amount fee weight ic oc t ud).to_bytes =
      some (.TransactionInfo a sos amount (if fee > 2 ^ 32 - 1 then 0 else fee)
        (if weight > 2 ^ 16 - 1 then 0 else weight) (if ic > 2 ^ 15 - 1 then 0 else ic)
        (if oc > 2 ^ 12 - 1 then 0 else oc) t ud) := by
  obtain ⟨hamt, hok, hlen, hpdual, hpsingle, hcol, htid⟩ := hc
  set enc := (PaymentId.TransactionInfo a sos amount fee weight ic oc t ud).to_bytes with hencdef
  have henc : enc = toLeBytes 8 amount ++ packMetaCore sos fee weight ic oc t ++
      a.bytes ++ ud := rfl
  have hlenenc : enc.length = 18 + a.bytes.length + ud.length := by
    rw [henc]
    simp [List.length_append, toLeBytes_length, packMetaCore_length]
    omega
  have hA : 32 < a.bytes.length := by omega
  have h0 : ¬ enc.length = 0 := by omega
  have h8 : ¬ enc.length = 8 := by omega
  have h32 : ¬ enc.length = 32 := by omega
  have hss : ¬ enc.length ≤ ssingle := by omega
  rw [PaymentId.from_bytes, if_neg h0, if_neg h8, if_neg h32, if_neg hss]
  have hdual_fall : aadProbe ssingle sdual ok enc sdual = some none := aadProbe_fall hpdual
  have hsingle_fall : aadProbe ssingle sdual ok enc ssingle = some none :=
    aadProbe_fall (fun _ => hpsingle)
  have hs1 : sliceChecked enc 0 8 = some (toLeBytes 8 amount) := by
    rw [henc, List.append_assoc, List.append_assoc]
    exact sliceChecked_prefix _ (toLeBytes_length 8 amount)
  have hs2 : sliceChecked enc 8 18 = some (packMetaCore sos fee weight ic oc t) := by
    rw [henc, List.append_assoc]
    exact sliceChecked_mid (a.bytes ++ ud) (toLeBytes_length 8 amount)
      (by rw [packMetaCore_length])
  have hpre18 : (toLeBytes 8 amount ++ packMetaCore sos fee weight ic oc t).length = 18 := by
    simp [List.length_append, toLeBytes_length, packMetaCore_length]
  have hs3 : sliceChecked enc 18 enc.length = some (a.bytes ++ ud) := by
    rw [henc, List.append_assoc (toLeBytes 8 amount ++ packMetaCore sos fee weight ic oc t)]
    exact sliceChecked_suffix (a.bytes ++ ud) hpre18
  simp only [fromBytesElse, hdual_fall, hsingle_fall, hs1, hs2, hs3,
    fromLeBytes_toLeBytes_of_lt (show amount < 256 ^ 8 by norm_num; omega)]
  rcases List.eq_nil_or_concat ud with hude | ⟨ud0, udlast, hudne⟩
  · -- no user data: the first `TransactionInfo` attempt consumes the whole tail
    subst hude
    have haddr : TariAddress.from_bytes ssingle sdual ok (a.bytes ++ []) = some a := by
      rw [List.append_nil]
      exact addr_from_bytes_ok hlen hok
    simp only [haddr]
    simp only [unpack_packMetaCore]
  · have hud : ud ≠ [] := by rw [hudne]; simp
    have hudl : 0 < ud.length := by
      cases ud with
      | nil => exact absurd rfl hud
      | cons x l => simp
    -- the whole-tail attempt fails
    have htail : TariAddress.from_bytes ssingle sdual ok (a.bytes ++ ud) = none := by
      by_cases hcase : a.bytes.length + ud.length = sdual
      · exact addr_from_bytes_fail_ok (hcol ⟨hud, hcase⟩)
      · refine addr_from_bytes_fail_len ?_ ?_ <;> rw [List.length_append] <;> omega
    simp only [htail]
    rcases hlen with hsl | hdl
    · -- single-size address
      have hdualfall : tiProbe ssingle sdual ok enc amount
          (PaymentId.unpack_meta_data (packMetaCore sos fee weight ic oc t)) sdual =
          some none := by
        refine tiProbe_fall (fun hg => ?_)
        have hdrop : enc.drop 18 = a.bytes ++ ud := by
          rw [henc, List.append_assoc
            (toLeBytes 8 amount ++ packMetaCore sos fee weight ic oc t)]
          exact List.drop_left' hpre18
        rw [hdrop]
        exact htid ⟨hsl, by omega⟩
      have hsinglehit : tiProbe ssingle sdual ok enc amount
          (PaymentId.unpack_meta_data (packMetaCore sos fee weight ic oc t)) ssingle =
          some (some (.TransactionInfo a
            (PaymentId.unpack_meta_data (packMetaCore sos fee weight ic oc t)).sender_one_sided
            amount
            (PaymentId.unpack_meta_data (packMetaCore sos fee weight ic oc t)).fee
            (PaymentId.unpack_meta_data (packMetaCore sos fee weight ic oc t)).weight
            (PaymentId.unpack_meta_data (packMetaCore sos fee weight ic oc t)).inputs_count
            (PaymentId.unpack_meta_data (packMetaCore sos fee weight ic oc t)).outputs_count
            (PaymentId.unpack_meta_data (packMetaCore sos fee weight ic oc t)).tx_type ud)) := by
        exact tiProbe_success henc hpre18 hsl hud (addr_from_bytes_ok (Or.inl hsl) hok)
      simp only [hdualfall]
      simp only [hsinglehit]
      simp only [unpack_packMetaCore]

    · -- dual-size address: the dual probe hits
      have hdualhit : tiProbe ssingle sdual ok enc amount
          (PaymentId.unpack_meta_data (packMetaCore sos fee weight ic oc t)) sdual =
          some (some (.TransactionInfo a
            (PaymentId.unpack_meta_data (packMetaCore sos fee weight ic oc t)).sender_one_sided
            amount
            (PaymentId.unpack_meta_data (packMetaCore sos fee weight ic oc t)).fee
            (PaymentId.unpack_meta_data (packMetaCore sos fee weight ic oc t)).weight
            (PaymentId.unpack_meta_data (packMetaCore sos fee weight ic oc t)).inputs_count
            (PaymentId.unpack_meta_data (packMetaCore sos fee weight ic oc t)).outputs_count
            (PaymentId.unpack_meta_data (packMetaCore sos fee weight ic oc t)).tx_type ud)) := by
        exact tiProbe_success henc hpre18 hdl hud (addr_from_bytes_ok (Or.inr hdl) hok)
      simp only [hdualhit]
      simp only [unpack_packMetaCore]

theorem open_decode {ssingle sdual : Nat} {ok : List Nat → Bool} (t : TxType)
    (ud : List Nat) (hle : ud.length + 1 ≤ ssingle) (h7 : ud.length ≠ 7)
    (h31 : ud.length ≠ 31) :
    PaymentId.from_bytes ssingle sdual ok (PaymentId.Open ud t).to_bytes =
      some (.Open ud t) := by
  have henc : (PaymentId.Open ud t).to_bytes = t.as_u8 :: ud := rfl
  have hlen : (PaymentId.Open ud t).to_bytes.length = ud.length + 1 := by
    rw [henc]; simp
  rw [PaymentId.from_bytes, if_neg (by omega), if_neg (by omega), if_neg (by omega),
    if_pos (by omega), henc, openFallback_as_u8]

theorem open_decode_long {ssingle sdual : Nat} {ok : List Nat → Bool} (h1 : 32 < ssingle)
    (h2 : ssingle < sdual) (t : TxType) (ud : List Nat) (hgt : ssingle < ud.length + 1)
    (c1 : sdual < ud.length + 1 → ok ((t.as_u8 :: ud).take sdual) = false)
    (c2 : ok ((t.as_u8 :: ud).take ssingle) = false)
    (c3 : ud.length + 1 - 18 = ssingle ∨ ud.length + 1 - 18 = sdual →
      ok ((t.as_u8 :: ud).drop 18) = false)
    (c4 : 18 + sdual < ud.length + 1 → ok (((t.as_u8 :: ud).drop 18).take sdual) = false)
    (c5 : 18 + ssingle < ud.length + 1 →
      ok (((t.as_u8 :: ud).drop 18).take ssingle) = false) :
    PaymentId.from_bytes ssingle sdual ok (PaymentId.Open ud t).to_bytes =
      some (.Open ud t) := by
  have henc : (PaymentId.Open ud t).to_bytes = t.as_u8 :: ud := rfl
  have hlen : (PaymentId.Open ud t).to_bytes.length = ud.length + 1 := by
    rw [henc]; simp
  have hlen2 : (t.as_u8 :: ud).length = ud.length + 1 := by simp
  rw [PaymentId.from_bytes, if_neg (by omega), if_neg (by omega), if_neg (by omega),
    if_neg (by omega), henc]
  have hfall1 : aadProbe ssingle sdual ok (t.as_u8 :: ud) sdual = some none :=
    aadProbe_fall (fun hg => c1 (by rw [hlen2] at hg; exact hg))
  have hfall2 : aadProbe ssingle sdual ok (t.as_u8 :: ud) ssingle = some none :=
    aadProbe_fall (fun _ => c2)
  have hs1 : sliceChecked (t.as_u8 :: ud) 0 8 =
      some (((t.as_u8 :: ud).drop 0).take (8 - 0)) :=
    sliceChecked_eq (by omega) (by rw [hlen2]; omega)
  have hs2 : sliceChecked (t.as_u8 :: ud) 8 18 =
      some (((t.as_u8 :: ud).drop 8).take (18 - 8)) :=
    sliceChecked_eq (by omega) (by rw [hlen2]; omega)
  have hs3 : sliceChecked (t.as_u8 :: ud) 18 (t.as_u8 :: ud).length =
      some (((t.as_u8 :: ud).drop 18).take ((t.as_u8 :: ud).length - 18)) :=
    sliceChecked_eq (by omega) (le_refl _)
  have htake : ((t.as_u8 :: ud).drop 18).take ((t.as_u8 :: ud).length - 18) =
      (t.as_u8 :: ud).drop 18 := by
    have hd : (t.as_u8 :: ud).length - 18 = ((t.as_u8 :: ud).drop 18).length := by
      rw [List.length_drop]
    rw [hd, List.take_length]
  have htail : TariAddress.from_bytes ssingle sdual ok
      (((t.as_u8 :: ud).drop 18).take ((t.as_u8 :: ud).length - 18)) = none := by
    rw [htake]
    by_cases hc : ((t.as_u8 :: ud).drop 18).length = ssingle ∨
        ((t.as_u8 :: ud).drop 18).length = sdual
    · refine addr_from_bytes_fail_ok (c3 ?_)
      rw [List.length_drop, hlen2] at hc
      exact hc
    · push_neg at hc
      exact addr_from_bytes_fail_len hc.1 hc.2
  have ht1 : tiProbe ssingle sdual ok (t.as_u8 :: ud)
      (fromLeBytes (((t.as_u8 :: ud).drop 0).take (8 - 0)))
      (PaymentId.unpack_meta_data (((t.as_u8 :: ud).drop 8).take (18 - 8))) sdual =
      some none :=
    tiProbe_fall (fun hg => c4 (by rw [hlen2] at hg; exact hg))
  have ht2 : tiProbe ssingle sdual ok (t.as_u8 :: ud)
      (fromLeBytes (((t.as_u8 :: ud).drop 0).take (8 - 0)))
      (PaymentId.unpack_meta_data (((t.as_u8 :: ud).drop 8).take (18 - 8))) ssingle =
      some none :=
    tiProbe_fall (fun hg => c5 (by rw [hlen2] at hg; exact hg))
  simp only [fromBytesElse, hfall1, hfall2, hs1, hs2, hs3, htail, ht1, ht2,
    openFallback_as_u8]

theorem aad_decode {ssingle sdual : Nat} {ok : List Nat → Bool} (h1 : 32 < ssingle)
    (h2 : ssingle < sdual) (a : TariAddress) (t : TxType) (ud : List Nat)
    (hok : ok a.bytes = true)
    (hlen : a.bytes.length = sdual ∨
      (a.bytes.length = ssingle ∧
        (sdual < ssingle + 1 + ud.length →
          ok ((a.bytes ++ t.as_u8 :: ud).take sdual) = false))) :
    PaymentId.from_bytes ssingle sdual ok (PaymentId.AddressAndData a t ud).to_bytes =
      some (.AddressAndData a t ud) := by
  have henc : (PaymentId.AddressAndData a t ud).to_bytes = a.bytes ++ t.as_u8 :: ud := by
    show a.to_vec ++ t.as_bytes ++ ud = a.bytes ++ t.as_u8 :: ud
    simp [TariAddress.to_vec, TxType.as_bytes]
  have hA : 32 < a.bytes.length := by rcases hlen with h | ⟨h, _⟩ <;> omega
  have hlenenc : (PaymentId.AddressAndData a t ud).to_bytes.length =
      a.bytes.length + 1 + ud.length := by
    rw [henc]; simp [List.length_append]; omega
  rw [PaymentId.from_bytes, if_neg (by omega), if_neg (by omega), if_neg (by omega),
    if_neg (by omega)]
  rcases hlen with hdl | ⟨hsl, hfall⟩
  · have hhit : aadProbe ssingle sdual ok (PaymentId.AddressAndData a t ud).to_bytes sdual =
        some (some (.AddressAndData a (TxType.from_u8 t.as_u8) ud)) :=
      aadProbe_success henc hdl (addr_from_bytes_ok (Or.inr hdl) hok)
    simp only [fromBytesElse, hhit, TxType.from_u8_as_u8]
  · have hfall1 : aadProbe ssingle sdual ok (PaymentId.AddressAndData a t ud).to_bytes
        sdual = some none := by
      refine aadProbe_fall (fun hg => ?_)
      rw [henc]
      exact hfall (by omega)
    have hhit : aadProbe ssingle sdual ok (PaymentId.AddressAndData a t ud).to_bytes
        ssingle = some (some (.AddressAndData a (TxType.from_u8 t.as_u8) ud)) :=
      aadProbe_success henc hsl (addr_from_bytes_ok (Or.inl hsl) hok)
    simp only [fromBytesElse, hfall1]
    simp only [hhit, TxType.from_u8_as_u8]

/-- Conditions under which a payment id's encoding decodes back to itself:
`U64` and `U256` values must be in range; an `Open` encoding must not collide
with the `U64`/`U256` lengths, and when it is longer than the single-address
arm no address-length probe on it may spuriously pass the content check (it
then round-trips through the final fallback); address-bearing variants need a
well-formed address, no spurious earlier address probe, and (for
`TransactionInfo`) in-range metadata. -/
def PaymentId.decodable (ssingle sdual : Nat) (ok : List Nat → Bool) : PaymentId → Prop
  | .Empty => True
  | .U64 v => v < 2 ^ 64
  | .U256 v => v < 2 ^ 256
  | .Open ud t =>
      ud.length ≠ 7 ∧ ud.length ≠ 31 ∧
        (ud.length + 1 ≤ ssingle ∨
          ((sdual < ud.length + 1 → ok ((t.as_u8 :: ud).take sdual) = false) ∧
            ok ((t.as_u8 :: ud).take ssingle) = false ∧
            (ud.length + 1 - 18 = ssingle ∨ ud.length + 1 - 18 = sdual →
              ok ((t.as_u8 :: ud).drop 18) = false) ∧
            (18 + sdual < ud.length + 1 →
              ok (((t.as_u8 :: ud).drop 18).take sdual) = false) ∧
            (18 + ssingle < ud.length + 1 →
              ok (((t.as_u8 :: ud).drop 18).take ssingle) = false)))
  | .AddressAndData a t ud =>
      ok a.bytes = true ∧
        (a.bytes.length = sdual ∨
          (a.bytes.length = ssingle ∧
            (sdual < ssingle + 1 + ud.length →
              ok ((a.bytes ++ t.as_u8 :: ud).take sdual) = false)))
  | .TransactionInfo a sos amount fee weight ic oc t ud =>
      tiCond ssingle sdual ok a sos amount fee weight ic oc t ud ∧
        fee ≤ 2 ^ 32 - 1 ∧ weight ≤ 2 ^ 16 - 1 ∧ ic ≤ 2 ^ 15 - 1 ∧ oc ≤ 2 ^ 12 - 1

instance (ssingle sdual : Nat) (ok : List Nat → Bool) (p : PaymentId) :
    Decidable (PaymentId.decodable ssingle sdual ok p) := by
  cases p <;> simp only [PaymentId.decodable, tiCond] <;> infer_instance

theorem from_bytes_to_bytes {ssingle sdual : Nat} {ok : List Nat → Bool}
    (h1 : 32 < ssingle) (h2 : ssingle < sdual) (p : PaymentId)
    (hp : p.decodable ssingle sdual ok) :
    PaymentId.from_bytes ssingle sdual ok p.to_bytes = some p := by
  cases p with
  | Empty => rfl
  | U64 v =>
      have hl : (PaymentId.U64 v).to_bytes.length = 8 := toLeBytes_length 8 v
      rw [PaymentId.from_bytes, if_neg (by omega), if_pos hl]
      rw [show (PaymentId.U64 v).to_bytes = toLeBytes 8 v from rfl,
        fromLeBytes_toLeBytes_of_lt (show v < 256 ^ 8 by norm_num; exact hp)]
  | U256 v =>
      have hl : (PaymentId.U256 v).to_bytes.length = 32 := toLeBytes_length 32 v
      rw [PaymentId.from_bytes, if_neg (by omega), if_neg (by omega), if_pos hl]
      rw [show (PaymentId.U256 v).to_bytes = toLeBytes 32 v from rfl,
        fromLeBytes_toLeBytes_of_lt (show v < 256 ^ 32 by norm_num; exact hp)]
  | Open ud t =>
      obtain ⟨h7, h31, hca⟩ := hp
      by_cases hle : ud.length + 1 ≤ ssingle
      · exact open_decode t ud hle h7 h31
      · rcases hca with hca | ⟨c1, c2, c3, c4, c5⟩
        · exact absurd hca hle
        · exact open_decode_long h1 h2 t ud (by omega) c1 c2 c3 c4 c5
  | AddressAndData a t ud => exact aad_decode h1 h2 a t ud hp.1 hp.2
  | TransactionInfo a sos amount fee weight ic oc t ud =>
      obtain ⟨hcond, hf, hw, hic, hoc⟩ := hp
      rw [ti_decode h1 h2 a sos amount fee weight ic oc t ud hcond,
        if_neg (by omega), if_neg (by omega), if_neg (by omega), if_neg (by omega)]

theorem openFallback_isSome {bytes : List Nat} (h : bytes ≠ []) :
    (openFallback bytes).isSome = true := by
  cases bytes with
  | nil => exact absurd rfl h
  | cons a l => simp [openFallback]

theorem aadProbe_isSome (ssingle sdual : Nat) (ok : List Nat → Bool) (bytes : List Nat)
    (sz : Nat) : (aadProbe ssingle sdual ok bytes sz).isSome = true := by
  by_cases hg : sz < bytes.length
  · have hs : sliceChecked bytes 0 sz = some (bytes.take sz) := by
      rw [sliceChecked, if_pos ⟨Nat.zero_le _, by omega⟩]
      simp
    have hget : bytes[sz]? = some bytes[sz] := List.getElem?_eq_getElem hg
    have hrest : sliceChecked bytes (sz + 1) bytes.length =
        some ((bytes.drop (sz + 1)).take (bytes.length - (sz + 1))) :=
      sliceChecked_eq (by omega) (le_refl _)
    simp only [aadProbe, if_pos hg, hs, hget, hrest]
    cases TariAddress.from_bytes ssingle sdual ok (bytes.take sz) <;> simp
  · simp [aadProbe, if_neg hg]

theorem tiProbe_isSome (ssingle sdual : Nat) (ok : List Nat → Bool) (bytes : List Nat)
    (amount : Nat) (m : UnpackedMeta) (sz : Nat) :
    (tiProbe ssingle sdual ok bytes amount m sz).isSome = true := by
  by_cases hg : 18 + sz < bytes.length
  · have hs : sliceChecked bytes 18 (18 + sz) =
        some ((bytes.drop 18).take (18 + sz - 18)) := sliceChecked_eq (by omega) (by omega)
    have hrest : sliceChecked bytes (18 + sz) bytes.length =
        some ((bytes.drop (18 + sz)).take (bytes.length - (18 + sz))) :=
      sliceChecked_eq (by omega) (le_refl _)
    simp only [tiProbe, if_pos hg, hs, hrest]
    cases TariAddress.from_bytes ssingle sdual ok ((bytes.drop 18).take (18 + sz - 18)) <;>
      simp
  · simp [tiProbe, if_neg hg]

theorem fromBytesElse_isSome {ssingle sdual : Nat} {ok : List Nat → Bool}
    {bytes : List Nat} (h1 : 32 < ssingle) (hlen : ssingle < bytes.length) :
    (fromBytesElse ssingle sdual ok bytes).isSome = true := by
  have hne : bytes ≠ [] := by
    intro h
    rw [h] at hlen
    simp only [List.length_nil] at hlen
    omega
  cases haadd : aadProbe ssingle sdual ok bytes sdual with
  | none =>
    have htot := aadProbe_isSome ssingle sdual ok bytes sdual
    rw [haadd] at htot
    simp at htot
  | some o1 =>
    cases o1 with
    | some p => simp [fromBytesElse, haadd]
    | none =>
      cases haads : aadProbe ssingle sdual ok bytes ssingle with
      | none =>
        have htot := aadProbe_isSome ssingle sdual ok bytes ssingle
        rw [haads] at htot
        simp at htot
      | some o2 =>
        cases o2 with
        | some p => simp [fromBytesElse, haadd, haads]
        | none =>
          have hs1 : sliceChecked bytes 0 8 = some ((bytes.drop 0).take (8 - 0)) :=
            sliceChecked_eq (by omega) (by omega)
          have hs2 : sliceChecked bytes 8 18 = some ((bytes.drop 8).take (18 - 8)) :=
            sliceChecked_eq (by omega) (by omega)
          have hs3 : sliceChecked bytes 18 bytes.length =
              some ((bytes.drop 18).take (bytes.length - 18)) :=
            sliceChecked_eq (by omega) (le_refl _)
          simp only [fromBytesElse, haadd, haads, hs1, hs2, hs3]
          set am := fromLeBytes ((bytes.drop 0).take (8 - 0)) with ham
          set mm := PaymentId.unpack_meta_data ((bytes.drop 8).take (18 - 8)) with hmeta
          set tl := (bytes.drop 18).take (bytes.length - 18) with htl
          cases haddr2 : TariAddress.from_bytes ssingle sdual ok tl with
          | some addr => simp
          | none =>
            cases ht1 : tiProbe ssingle sdual ok bytes am mm sdual with
            | none =>
              have htot := tiProbe_isSome ssingle sdual ok bytes am mm sdual
              rw [ht1] at htot
              simp at htot
            | some o3 =>
              cases o3 with
              | some p => simp [ht1]
              | none =>
                cases ht2 : tiProbe ssingle sdual ok bytes am mm ssingle with
                | none =>
                  have htot := tiProbe_isSome ssingle sdual ok bytes am mm ssingle
                  rw [ht2] at htot
                  simp at htot
                | some o4 =>
                  cases o4 with
                  | some p => simp [ht1, ht2]
                  | none => simp [ht1, ht2, openFallback_isSome hne]

theorem from_bytes_isSome {ssingle sdual : Nat} {ok : List Nat → Bool} (h1 : 32 < ssingle)
    (bytes : List Nat) : (PaymentId.from_bytes ssingle sdual ok bytes).isSome = true := by
  rw [PaymentId.from_bytes]
  by_cases h0 : bytes.length = 0
  · simp [h0]
  · rw [if_neg h0]
    by_cases h8 : bytes.length = 8
    · simp [h8]
    · rw [if_neg h8]
      by_cases h32 : bytes.length = 32
      · simp [h32]
      · rw [if_neg h32]
        by_cases hss : bytes.length ≤ ssingle
        · rw [if_pos hss]
          exact openFallback_isSome (by
            intro h
            rw [h] at h0
            exact h0 rfl)
        · rw [if_neg hss]
          exact fromBytesElse_isSome h1 (by omega)

theorem xorKs_length (key nonce : List Nat) (i : Nat) (l : List Nat) :
    (xorKs key nonce i l).length = l.length := by
  induction l generalizing i with
  | nil => rfl
  | cons b t ih => simp [xorKs, ih]

theorem xorKs_xorKs (key nonce : List Nat) (i : Nat) (l : List Nat) :
    xorKs key nonce i (xorKs key nonce i l) = l := by
  induction l generalizing i with
  | nil => rfl
  | cons b t ih =>
      show ((b ^^^ keystreamByte key nonce i) ^^^ keystreamByte key nonce i) ::
        xorKs key nonce (i + 1) (xorKs key nonce (i + 1) t) = b :: t
      rw [Nat.xor_assoc, Nat.xor_self, Nat.xor_zero, ih]

theorem polyTag_length (key nonce aad ct : List Nat) :
    (polyTag key nonce aad ct).length = 16 := toLeBytes_length 16 _

theorem canonicalScalarBytes_length {b : List Nat} (h : canonicalScalarBytes b = true) :
    b.length = 32 := by
  rw [canonicalScalarBytes, Bool.and_eq_true, Bool.and_eq_true] at h
  simpa using h.1.1

theorem encrypt_data_eq {key comm : List Nat} {value : Nat} {mask : PrivateKey}
    {payment_id : PaymentId} {nonce : List Nat} (hm : mask.bytes.length = 32)
    (hn : nonce.length = 24) (hsz : payment_id.get_size ≤ 256) :
    EncryptedData.encrypt_data key comm value mask payment_id nonce =
      .ok ⟨polyTag (kdf_aead key comm) nonce ENCRYPTED_DATA_AAD
            (xorKs (kdf_aead key comm) nonce 0
              (toLeBytes 8 value ++ mask.bytes ++ payment_id.to_bytes)) ++ nonce ++
          xorKs (kdf_aead key comm) nonce 0
            (toLeBytes 8 value ++ mask.bytes ++ payment_id.to_bytes)⟩ := by
  have hct : (xorKs (kdf_aead key comm) nonce 0
      (toLeBytes 8 value ++ mask.bytes ++ payment_id.to_bytes)).length =
      40 + payment_id.get_size := by
    rw [xorKs_length]
    simp [List.length_append, toLeBytes_length, hm, PaymentId.to_bytes_length]
    omega
  simp only [EncryptedData.encrypt_data]
  rw [if_pos]
  simp only [List.length_append, polyTag_length, hn, hct, MAX_ENCRYPTED_DATA_SIZE,
    STATIC_ENCRYPTED_DATA_SIZE_TOTAL, SIZE_NONCE, SIZE_VALUE, SIZE_MASK, SIZE_TAG]
  omega

theorem encrypt_data_too_long {key comm : List Nat} {value : Nat} {mask : PrivateKey}
    {payment_id : PaymentId} {nonce : List Nat} (hm : mask.bytes.length = 32)
    (hn : nonce.length = 24) (hsz : 256 < payment_id.get_size) :
    EncryptedData.encrypt_data key comm value mask payment_id nonce =
      .error (.IncorrectLength ("Data too long")) := by
  have hct : (xorKs (kdf_aead key comm) nonce 0
      (toLeBytes 8 value ++ mask.bytes ++ payment_id.to_bytes)).length =
      40 + payment_id.get_size := by
    rw [xorKs_length]
    simp [List.length_append, toLeBytes_length, hm, PaymentId.to_bytes_length]
    omega
  simp only [EncryptedData.encrypt_data]
  rw [if_neg]
  simp only [List.length_append, polyTag_length, hn, hct, MAX_ENCRYPTED_DATA_SIZE,
    STATIC_ENCRYPTED_DATA_SIZE_TOTAL, SIZE_NONCE, SIZE_VALUE, SIZE_MASK, SIZE_TAG]
  omega

theorem decrypt_data_encrypt_data {ssingle sdual : Nat} {ok : List Nat → Bool}
    {key comm : List Nat} {value : Nat} {mask : PrivateKey} {payment_id : PaymentId}
    {nonce : List Nat} (h1 : 32 < ssingle) (h2 : ssingle < sdual) (hv : value < 2 ^ 64)
    (hm : canonicalScalarBytes mask.bytes = true) (hn : nonce.length = 24)
    (hsz : payment_id.get_size ≤ 256) :
    ∃ e p, EncryptedData.encrypt_data key comm value mask payment_id nonce = .ok e ∧
      PaymentId.from_bytes ssingle sdual ok payment_id.to_bytes = some p ∧
      EncryptedData.decrypt_data ssingle sdual ok key comm e = some (.ok (value, mask, p)) := by
  have hm32 : mask.bytes.length = 32 := canonicalScalarBytes_length hm
  obtain ⟨p, hp⟩ := Option.isSome_iff_exists.mp
    (@from_bytes_isSome ssingle sdual ok h1 payment_id.to_bytes)
  refine ⟨_, p, encrypt_data_eq hm32 hn hsz, hp, ?_⟩
  have htaglen : (polyTag (kdf_aead key comm) nonce ENCRYPTED_DATA_AAD
      (xorKs (kdf_aead key comm) nonce 0
        (toLeBytes 8 value ++ mask.bytes ++ payment_id.to_bytes))).length = 16 :=
    polyTag_length _ _ _ _
  have hslice1 : sliceChecked (polyTag (kdf_aead key comm) nonce ENCRYPTED_DATA_AAD
      (xorKs (kdf_aead key comm) nonce 0
        (toLeBytes 8 value ++ mask.bytes ++ payment_id.to_bytes)) ++ nonce ++
      xorKs (kdf_aead key comm) nonce 0
        (toLeBytes 8 value ++ mask.bytes ++ payment_id.to_bytes)) 0 SIZE_TAG =
      some (polyTag (kdf_aead key comm) nonce ENCRYPTED_DATA_AAD
        (xorKs (kdf_aead key comm) nonce 0
          (toLeBytes 8 value ++ mask.bytes ++ payment_id.to_bytes))) :=
    sliceChecked_prefix3 _ _ htaglen
  have hslice2 : sliceChecked (polyTag (kdf_aead key comm) nonce ENCRYPTED_DATA_AAD
      (xorKs (kdf_aead key comm) nonce 0
        (toLeBytes 8 value ++ mask.bytes ++ payment_id.to_bytes)) ++ nonce ++
      xorKs (kdf_aead key comm) nonce 0
        (toLeBytes 8 value ++ mask.bytes ++ payment_id.to_bytes)) SIZE_TAG
      (SIZE_TAG + SIZE_NONCE) = some nonce :=
    sliceChecked_mid _ htaglen (by rw [hn]; rfl)
  have hslice3 : sliceChecked (polyTag (kdf_aead key comm) nonce ENCRYPTED_DATA_AAD
      (xorKs (kdf_aead key comm) nonce 0
        (toLeBytes 8 value ++ mask.bytes ++ payment_id.to_bytes)) ++ nonce ++
      xorKs (kdf_aead key comm) nonce 0
        (toLeBytes 8 value ++ mask.bytes ++ payment_id.to_bytes)) (SIZE_TAG + SIZE_NONCE)
      (polyTag (kdf_aead key comm) nonce ENCRYPTED_DATA_AAD
        (xorKs (kdf_aead key comm) nonce 0
          (toLeBytes 8 value ++ mask.bytes ++ payment_id.to_bytes)) ++ nonce ++
        xorKs (kdf_aead key comm) nonce 0
          (toLeBytes 8 value ++ mask.bytes ++ payment_id.to_bytes)).length =
      some (xorKs (kdf_aead key comm) nonce 0
        (toLeBytes 8 value ++ mask.bytes ++ payment_id.to_bytes)) :=
    sliceChecked_suffix _ (by rw [List.length_append, htaglen, hn]; rfl)
  simp only [EncryptedData.decrypt_data, hslice1, hslice2, hslice3]
  rw [if_pos trivial, xorKs_xorKs]
  have hpt1 : sliceChecked (toLeBytes 8 value ++ mask.bytes ++ payment_id.to_bytes) 0
      SIZE_VALUE = some (toLeBytes 8 value) :=
    sliceChecked_prefix3 _ _ (toLeBytes_length 8 value)
  have hpt2 : sliceChecked (toLeBytes 8 value ++ mask.bytes ++ payment_id.to_bytes)
      SIZE_VALUE (SIZE_VALUE + SIZE_MASK) = some mask.bytes :=
    sliceChecked_mid payment_id.to_bytes (toLeBytes_length 8 value) (by rw [hm32]; rfl)
  have hpt3 : sliceChecked (toLeBytes 8 value ++ mask.bytes ++ payment_id.to_bytes)
      (SIZE_VALUE + SIZE_MASK) (toLeBytes 8 value ++ mask.bytes ++
        payment_id.to_bytes).length = some payment_id.to_bytes :=
    sliceChecked_suffix _ (by rw [List.length_append, toLeBytes_length, hm32]; rfl)
  simp only [hpt1, hpt2, hpt3, PrivateKey.from_canonical_bytes, if_pos hm, hp,
    fromLeBytes_toLeBytes_of_lt (show value < 256 ^ 8 by norm_num; omega)]

theorem encrypt_data_nonce {key comm : List Nat} {value : Nat} {mask : PrivateKey}
    {payment_id : PaymentId} {nonce : List Nat} {e : EncryptedData}
    (hn : nonce.length = 24)
    (he : EncryptedData.encrypt_data key comm value mask payment_id nonce = .ok e) :
    (e.data.drop 16).take 24 = nonce := by
  simp only [EncryptedData.encrypt_data] at he
  split at he
  · have hdata : e.data = polyTag (kdf_aead key comm) nonce ENCRYPTED_DATA_AAD
        (xorKs (kdf_aead key comm) nonce 0
          (toLeBytes 8 value ++ mask.bytes ++ payment_id.to_bytes)) ++ nonce ++
        xorKs (kdf_aead key comm) nonce 0
          (toLeBytes 8 value ++ mask.bytes ++ payment_id.to_bytes) := by
      cases he
      rfl
    rw [hdata, List.append_assoc, List.drop_left' (polyTag_length _ _ _ _),
      List.take_left' hn]
  · exact absurd he (by simp)

theorem hexVal_hexDigit : ∀ n < 16, hexVal (hexDigit n) = some n := by decide

theorem hexDigit_lower : ∀ n < 16, 48 ≤ hexDigit n ∧ hexDigit n ≤ 57 ∨
    97 ≤ hexDigit n ∧ hexDigit n ≤ 102 := by decide

theorem fromHexChars_toHexChars {l : List Nat} (h : ∀ b ∈ l, b < 256) :
    fromHexChars (toHexChars l) = some l := by
  induction l with
  | nil => rfl
  | cons b t ih =>
      have hb : b < 256 := h b (by simp)
      have ht : ∀ x ∈ t, x < 256 := fun x hx => h x (by simp [hx])
      have hshape : toHexChars (b :: t) =
          hexDigit (b / 16) :: hexDigit (b % 16) :: toHexChars t := by
        simp [toHexChars]
      rw [hshape]
      simp only [fromHexChars, hexVal_hexDigit (b / 16) (by omega),
        hexVal_hexDigit (b % 16) (by omega), ih ht]
      have hbval : 16 * (b / 16) + b % 16 = b := by omega
      rw [hbval]

theorem toHexChars_lower {l : List Nat} (h : ∀ b ∈ l, b < 256) :
    ∀ c ∈ toHexChars l, 48 ≤ c ∧ c ≤ 57 ∨ 97 ≤ c ∧ c ≤ 102 := by
  induction l with
  | nil => simp [toHexChars]
  | cons b t ih =>
      have hb : b < 256 := h b (by simp)
      have ht : ∀ x ∈ t, x < 256 := fun x hx => h x (by simp [hx])
      have hshape : toHexChars (b :: t) =
          hexDigit (b / 16) :: hexDigit (b % 16) :: toHexChars t := by
        simp [toHexChars]
      rw [hshape]
      intro c hc
      simp only [List.mem_cons] at hc
      rcases hc with rfl | rfl | hc
      · exact hexDigit_lower (b / 16) (by omega)
      · exact hexDigit_lower (b % 16) (by omega)
      · exact ih ht c hc

deriving instance DecidableEq for Except

/-- C1 counterexample: with the `Open` payment id holding 7 bytes of user data
(whose 8-byte encoding fits the payload limit), decrypting the encryption
succeeds but returns `U64 0`, not the original payment id, so decrypt of
encrypt does not return exactly the input triple. -/
theorem c1_counterexample : ∃ e,
    EncryptedData.encrypt_data (List.replicate 32 1) (List.replicate 32 2) 0
      ⟨List.replicate 32 0⟩ (PaymentId.Open (List.replicate 7 0) TxType.PaymentToOther)
      (List.replicate 24 5) = .ok e ∧
    EncryptedData.decrypt_data 35 67 (fun _ => false) (List.replicate 32 1)
      (List.replicate 32 2) e =
      some (.ok (0, ⟨List.replicate 32 0⟩, PaymentId.U64 0)) ∧
    PaymentId.U64 0 ≠ PaymentId.Open (List.replicate 7 0) TxType.PaymentToOther := by
  refine ⟨_, rfl, ?_, by decide⟩
  decide

/-- C1 (amended): for every encryption key, commitment, in-range value,
canonical mask, 24-byte nonce and payment id whose encoded size fits the
payload limit, decryption of the encryption succeeds and returns the value,
the mask, and the decode of the payment id's encoding — which is the original
payment id exactly when that encoding round-trips. -/
theorem c1_decrypt_encrypt (ssingle sdual : Nat) (ok : List Nat → Bool)
    (key comm : List Nat) (value : Nat) (mask : PrivateKey) (payment_id : PaymentId)
    (nonce : List Nat) (h1 : 32 < ssingle) (h2 : ssingle < sdual) (hv : value < 2 ^ 64)
    (hm : canonicalScalarBytes mask.bytes = true) (hn : nonce.length = 24)
    (hsz : payment_id.get_size ≤ 256) :
    ∃ e p, EncryptedData.encrypt_data key comm value mask payment_id nonce = .ok e ∧
      PaymentId.from_bytes ssingle sdual ok payment_id.to_bytes = some p ∧
      EncryptedData.decrypt_data ssingle sdual ok key comm e =
        some (.ok (value, mask, p)) :=
  decrypt_data_encrypt_data h1 h2 hv hm hn hsz

/-- C1 witness: the amended round trip at a concrete instance. -/
theorem c1_decrypt_encrypt_witness :
    (32 < 35 ∧ 35 < 67 ∧ (4242 : Nat) < 2 ^ 64 ∧
      canonicalScalarBytes (List.replicate 32 0) = true ∧
      (List.replicate 24 5).length = 24 ∧
      (PaymentId.Open ([1, 2, 3]) TxType.CoinSplit).get_size ≤ 256) ∧
    ∃ e p, EncryptedData.encrypt_data (List.replicate 32 1) (List.replicate 32 2) 4242
        ⟨List.replicate 32 0⟩ (PaymentId.Open ([1, 2, 3]) TxType.CoinSplit)
        (List.replicate 24 5) = .ok e ∧
      PaymentId.from_bytes 35 67 (fun _ => false)
        (PaymentId.Open ([1, 2, 3]) TxType.CoinSplit).to_bytes = some p ∧
      EncryptedData.decrypt_data 35 67 (fun _ => false) (List.replicate 32 1)
        (List.replicate 32 2) e = some (.ok (4242, ⟨List.replicate 32 0⟩, p)) :=
  ⟨⟨by decide, by decide, by decide, by decide, by decide, by decide⟩,
    c1_decrypt_encrypt 35 67 (fun _ => false) (List.replicate 32 1) (List.replicate 32 2)
      4242 ⟨List.replicate 32 0⟩ (PaymentId.Open ([1, 2, 3]) TxType.CoinSplit)
      (List.replicate 24 5) (by decide) (by decide) (by decide) (by decide) (by decide)
      (by decide)⟩

/-- C2 counterexample: an `Open` payment id with 7 bytes of user data encodes
to 8 bytes, which `from_bytes` decodes as `U64 0`, not the original variant. -/
theorem c2_counterexample :
    PaymentId.from_bytes 35 67 (fun _ => false)
        (PaymentId.Open (List.replicate 7 0) TxType.PaymentToOther).to_bytes =
      some (PaymentId.U64 0) ∧
    PaymentId.U64 0 ≠ PaymentId.Open (List.replicate 7 0) TxType.PaymentToOther := by
  decide

/-- C2 (amended): `PaymentId::from_bytes (p.to_bytes) = p` for every variant
whose encoding is unambiguous, i.e. `decodable`: `U64`/`U256` values in range;
an `Open` whose encoded length is not 8 or 32 (shorter encodings decode via
the single-address arm, longer ones through the final fallback provided no
address-length probe on the encoding spuriously passes the content check);
`AddressAndData` and `TransactionInfo` with a well-formed address and no
spuriously succeeding earlier address-length probe; `TransactionInfo`
additionally with in-range metadata fields. -/
theorem c2_payment_id_roundtrip (ssingle sdual : Nat) (ok : List Nat → Bool)
    (p : PaymentId) (h1 : 32 < ssingle) (h2 : ssingle < sdual)
    (hp : p.decodable ssingle sdual ok) :
    PaymentId.from_bytes ssingle sdual ok p.to_bytes = some p :=
  from_bytes_to_bytes h1 h2 p hp

/-- C2 witness: the amended round trip at a concrete `AddressAndData` with a
single-size address, and at an `Open` with 255 bytes of user data (the
repository test's long-`Open` case, whose 256-byte encoding exceeds the
single-address arm and decodes through the final fallback). -/
theorem c2_payment_id_roundtrip_witness :
    ((32 < 35 ∧ 35 < 67 ∧
      (PaymentId.AddressAndData ⟨List.replicate 35 9⟩ TxType.Burn
        ([1, 2, 3])).decodable 35 67 (fun l => l == List.replicate 35 9)) ∧
      PaymentId.from_bytes 35 67 (fun l => l == List.replicate 35 9)
        (PaymentId.AddressAndData ⟨List.replicate 35 9⟩ TxType.Burn ([1, 2, 3])).to_bytes =
        some (PaymentId.AddressAndData ⟨List.replicate 35 9⟩ TxType.Burn ([1, 2, 3]))) ∧
    ((PaymentId.Open (List.replicate 255 1) TxType.PaymentToOther).decodable 35 67
        (fun _ => false) ∧
      PaymentId.from_bytes 35 67 (fun _ => false)
        (PaymentId.Open (List.replicate 255 1) TxType.PaymentToOther).to_bytes =
        some (PaymentId.Open (List.replicate 255 1) TxType.PaymentToOther)) :=
  ⟨⟨⟨by decide, by decide, by decide⟩,
    c2_payment_id_roundtrip 35 67 (fun l => l == List.replicate 35 9)
      (PaymentId.AddressAndData ⟨List.replicate 35 9⟩ TxType.Burn ([1, 2, 3]))
      (by decide) (by decide) (by decide)⟩,
    ⟨by decide,
      c2_payment_id_roundtrip 35 67 (fun _ => false)
        (PaymentId.Open (List.replicate 255 1) TxType.PaymentToOther)
        (by decide) (by decide) (by decide)⟩⟩

/-- C3: encoding then decoding a `TransactionInfo` payment id zeroes exactly
the out-of-range metadata fields (`fee` above `2^32 - 1`, `weight` above
`2^16 - 1`, `inputs_count` above `2^15 - 1`, `outputs_count` above `2^12 - 1`
each decode as 0) while `amount`, `recipient_address`, `tx_type`,
`sender_one_sided`, `user_data` and every in-range metadata field are
unchanged; overflow never produces an error (the address-module side
conditions `tiCond` cover the spec-modelled external address decode). -/
theorem c3_meta_saturation (ssingle sdual : Nat) (ok : List Nat → Bool) (a : TariAddress)
    (sos : Bool) (amount fee weight ic oc : Nat) (t : TxType) (ud : List Nat)
    (h1 : 32 < ssingle) (h2 : ssingle < sdual)
    (hc : tiCond ssingle sdual ok a sos amount fee weight ic oc t ud) :
    PaymentId.from_bytes ssingle sdual ok
        (PaymentId.TransactionInfo a sos amount fee weight ic oc t ud).to_bytes =
      some (PaymentId.TransactionInfo a sos amount
        (if fee > 2 ^ 32 - 1 then 0 else fee) (if weight > 2 ^ 16 - 1 then 0 else weight)
        (if ic > 2 ^ 15 - 1 then 0 else ic) (if oc > 2 ^ 12 - 1 then 0 else oc) t ud) :=
  ti_decode h1 h2 a sos amount fee weight ic oc t ud hc

/-- C3 witness: the spec's concrete overflow scenario (`fee = 2^32 + 100`,
`weight = 2^16 + 100`, `inputs = 2^15 + 100`, `outputs = 2^12 + 100`) decodes
with those four fields zeroed and everything else intact. -/
theorem c3_meta_saturation_witness :
    (32 < 35 ∧ 35 < 67 ∧
      tiCond 35 67 (fun l => l == List.replicate 35 9) ⟨List.replicate 35 9⟩ true 1
        (2 ^ 32 + 100) (2 ^ 16 + 100) (2 ^ 15 + 100) (2 ^ 12 + 100) TxType.Burn
        ([1, 2, 3])) ∧
    PaymentId.from_bytes 35 67 (fun l => l == List.replicate 35 9)
        (PaymentId.TransactionInfo ⟨List.replicate 35 9⟩ true 1 (2 ^ 32 + 100)
          (2 ^ 16 + 100) (2 ^ 15 + 100) (2 ^ 12 + 100) TxType.Burn ([1, 2, 3])).to_bytes =
      some (PaymentId.TransactionInfo ⟨List.replicate 35 9⟩ true 1
        (if 2 ^ 32 + 100 > 2 ^ 32 - 1 then 0 else 2 ^ 32 + 100)
        (if 2 ^ 16 + 100 > 2 ^ 16 - 1 then 0 else 2 ^ 16 + 100)
        (if 2 ^ 15 + 100 > 2 ^ 15 - 1 then 0 else 2 ^ 15 + 100)
        (if 2 ^ 12 + 100 > 2 ^ 12 - 1 then 0 else 2 ^ 12 + 100) TxType.Burn ([1, 2, 3])) :=
  ⟨⟨by decide, by decide, by decide⟩,
    c3_meta_saturation 35 67 (fun l => l == List.replicate 35 9) ⟨List.replicate 35 9⟩
      true 1 (2 ^ 32 + 100) (2 ^ 16 + 100) (2 ^ 15 + 100) (2 ^ 12 + 100) TxType.Burn
      ([1, 2, 3]) (by decide) (by decide) (by decide)⟩

/-- C4: for every byte `x`, `TxType::from_u8` depends only on the low nibble
of `x`, and every low nibble other than the ten defined values `0..=9` maps to
the default `PaymentToOther`. -/
theorem c4_txtype_nibble : ∀ x < 256, TxType.from_u8 x = TxType.from_u8 (x &&& 15) ∧
    (10 ≤ x &&& 15 → TxType.from_u8 x = TxType.PaymentToOther) := by decide

/-- C4 witness: the nibble property at the concrete byte 200 (low nibble 8)
and 250 (low nibble 10). -/
theorem c4_txtype_nibble_witness :
    ((200 : Nat) < 256 ∧ TxType.from_u8 200 = TxType.from_u8 (200 &&& 15) ∧
      (10 ≤ 200 &&& 15 → TxType.from_u8 200 = TxType.PaymentToOther)) ∧
    ((250 : Nat) < 256 ∧ TxType.from_u8 250 = TxType.from_u8 (250 &&& 15) ∧
      (10 ≤ 250 &&& 15 → TxType.from_u8 250 = TxType.PaymentToOther)) :=
  ⟨⟨by decide, c4_txtype_nibble 200 (by decide)⟩,
    ⟨by decide, c4_txtype_nibble 250 (by decide)⟩⟩

/-- C5 counterexample: encryption of an `Open` payment id carrying 256 bytes of
user data returns `IncorrectLength` (257 encoded payment-id bytes push the
total to 337, over the 336-byte cap), while the claim says size 256 succeeds
and states the cap as `40 + 256`. -/
theorem c5_counterexample :
    EncryptedData.encrypt_data (List.replicate 32 1) (List.replicate 32 2) 0
      ⟨List.replicate 32 0⟩ (PaymentId.Open (List.replicate 256 1) TxType.PaymentToOther)
      (List.replicate 24 0) = .error (.IncorrectLength ("Data too long")) := by
  decide

/-- C5 (amended): `encrypt_data` fails with `IncorrectLength` exactly when the
total output `tag ‖ nonce ‖ ciphertext` exceeds `80 + 256` bytes, i.e. when
the encoded payment id exceeds 256 bytes; in particular `Open` user data of
size 255 (encoded size 256) succeeds and size 256 fails. -/
theorem c5_encrypt_length_bounds (key comm : List Nat) (value : Nat) (mask : PrivateKey)
    (payment_id : PaymentId) (nonce : List Nat) (hm : mask.bytes.length = 32)
    (hn : nonce.length = 24) :
    (payment_id.get_size ≤ 256 →
      ∃ e, EncryptedData.encrypt_data key comm value mask payment_id nonce = .ok e ∧
        e.data.length = 80 + payment_id.get_size) ∧
    (256 < payment_id.get_size →
      EncryptedData.encrypt_data key comm value mask payment_id nonce =
        .error (.IncorrectLength ("Data too long"))) := by
  have hct : (xorKs (kdf_aead key comm) nonce 0
      (toLeBytes 8 value ++ mask.bytes ++ payment_id.to_bytes)).length =
      40 + payment_id.get_size := by
    rw [xorKs_length]
    simp [List.length_append, toLeBytes_length, hm, PaymentId.to_bytes_length]
    omega
  constructor
  · intro h
    refine ⟨_, encrypt_data_eq hm hn h, ?_⟩
    simp only [List.length_append, polyTag_length, hn, hct]
    omega
  · intro h
    exact encrypt_data_too_long hm hn h

/-- C5 witness: `Open` user data of size 255 (encoded payment id size 256)
encrypts successfully to a 336-byte payload. -/
theorem c5_encrypt_length_bounds_witness :
    ((List.replicate 32 0).length = 32 ∧ (List.replicate 24 0).length = 24) ∧
    ((PaymentId.Open (List.replicate 255 1) TxType.PaymentToOther).get_size ≤ 256 →
      ∃ e, EncryptedData.encrypt_data (List.replicate 32 1) (List.replicate 32 2) 0
          ⟨List.replicate 32 0⟩
          (PaymentId.Open (List.replicate 255 1) TxType.PaymentToOther)
          (List.replicate 24 0) = .ok e ∧
        e.data.length = 80 +
          (PaymentId.Open (List.replicate 255 1) TxType.PaymentToOther).get_size) ∧
    (256 < (PaymentId.Open (List.replicate 255 1) TxType.PaymentToOther).get_size →
      EncryptedData.encrypt_data (List.replicate 32 1) (List.replicate 32 2) 0
        ⟨List.replicate 32 0⟩ (PaymentId.Open (List.replicate 255 1) TxType.PaymentToOther)
        (List.replicate 24 0) = .error (.IncorrectLength ("Data too long"))) :=
  ⟨⟨by decide, by decide⟩,
    c5_encrypt_length_bounds (List.replicate 32 1) (List.replicate 32 2) 0
      ⟨List.replicate 32 0⟩ (PaymentId.Open (List.replicate 255 1) TxType.PaymentToOther)
      (List.replicate 24 0) (by decide) (by decide)⟩

/-- C6 counterexample: the 80-byte minimal payload parses as a valid
`EncryptedData`, yet its `get_payment_id_size` is 0, not the claimed total
length minus 40 (which would be 40). -/
theorem c6_counterexample :
    EncryptedData.from_bytes (List.replicate 80 0) = .ok ⟨List.replicate 80 0⟩ ∧
    EncryptedData.get_payment_id_size ⟨List.replicate 80 0⟩ ≠ 80 - 40 := by
  decide

/-- C6 (amended): for every payload of at least the 80-byte static size,
`get_payment_id_size` returns the total byte length minus 80 (and the
subtraction saturates below that size). -/
theorem c6_payment_id_size (p : EncryptedData) (h : 80 ≤ p.data.length) :
    p.get_payment_id_size + 80 = p.data.length := by
  have hs : STATIC_ENCRYPTED_DATA_SIZE_TOTAL = 80 := rfl
  rw [EncryptedData.get_payment_id_size, hs]
  omega

/-- C6 witness: a 100-byte payload has a 20-byte payment-id region. -/
theorem c6_payment_id_size_witness :
    80 ≤ (EncryptedData.mk (List.replicate 100 0)).data.length ∧
    (EncryptedData.mk (List.replicate 100 0)).get_payment_id_size + 80 =
      (EncryptedData.mk (List.replicate 100 0)).data.length :=
  ⟨by decide, c6_payment_id_size ⟨List.replicate 100 0⟩ (by decide)⟩

/-- C7 counterexample: the default-constructed payload has 80 bytes, not the
claimed 40. -/
theorem c7_counterexample :
    EncryptedData.default.data.length = 80 ∧
    EncryptedData.default.data ≠ List.replicate 40 0 := by decide

/-- C7 (amended): the default-constructed `EncryptedData` payload consists of
exactly 80 zero bytes. -/
theorem c7_default_payload :
    EncryptedData.default.data.length = 80 ∧
    EncryptedData.default.data = List.replicate 80 0 := by decide

/-- C8: for every valid payload (length within bounds, bytes in range),
`from_hex (to_hex p) = p`, and `to_hex` emits only lowercase hexadecimal
characters (so in particular no `0x` prefix). -/
theorem c8_hex_roundtrip (p : EncryptedData) (hmin : 80 ≤ p.data.length)
    (hmax : p.data.length ≤ 336) (hb : ∀ b ∈ p.data, b < 256) :
    EncryptedData.from_hex (EncryptedData.to_hex p) = some p ∧
    ∀ c ∈ EncryptedData.to_hex p, 48 ≤ c ∧ c ≤ 57 ∨ 97 ≤ c ∧ c ≤ 102 := by
  have hsta : STATIC_ENCRYPTED_DATA_SIZE_TOTAL = 80 := rfl
  have hmx : MAX_ENCRYPTED_DATA_SIZE = 336 := rfl
  have hfb : EncryptedData.from_bytes p.data = .ok p := by
    rw [EncryptedData.from_bytes, if_neg (by omega), if_pos (by omega)]
  constructor
  · simp only [EncryptedData.to_hex, EncryptedData.to_byte_vec, EncryptedData.from_hex,
      fromHexChars_toHexChars hb, hfb]
  · exact toHexChars_lower hb

/-- C8 witness: the hex round trip at the 80-byte payload of byte value 171. -/
theorem c8_hex_roundtrip_witness :
    (80 ≤ (EncryptedData.mk (List.replicate 80 171)).data.length ∧
      (EncryptedData.mk (List.replicate 80 171)).data.length ≤ 336 ∧
      ∀ b ∈ (EncryptedData.mk (List.replicate 80 171)).data, b < 256) ∧
    EncryptedData.from_hex (EncryptedData.to_hex ⟨List.replicate 80 171⟩) =
      some ⟨List.replicate 80 171⟩ ∧
    ∀ c ∈ EncryptedData.to_hex ⟨List.replicate 80 171⟩,
      48 ≤ c ∧ c ≤ 57 ∨ 97 ≤ c ∧ c ≤ 102 :=
  ⟨⟨by decide, by decide, by decide⟩,
    c8_hex_roundtrip ⟨List.replicate 80 171⟩ (by decide) (by decide) (by decide)⟩

/-- C9: for fixed inputs, two encryptions that sample distinct 24-byte nonces
produce distinct payloads (the nonce is embedded verbatim at bytes 16..40 of
the emitted blob). -/
theorem c9_distinct_nonces (key comm : List Nat) (value : Nat) (mask : PrivateKey)
    (payment_id : PaymentId) (n1 n2 : List Nat) (e1 e2 : EncryptedData)
    (hn1 : n1.length = 24) (hn2 : n2.length = 24) (hne : n1 ≠ n2)
    (he1 : EncryptedData.encrypt_data key comm value mask payment_id n1 = .ok e1)
    (he2 : EncryptedData.encrypt_data key comm value mask payment_id n2 = .ok e2) :
    e1 ≠ e2 := by
  intro he
  apply hne
  have g1 := encrypt_data_nonce hn1 he1
  have g2 := encrypt_data_nonce hn2 he2
  rw [← g1, ← g2, he]

/-- C9 witness: two concrete encryptions of identical inputs under different
nonces yield different payloads. -/
theorem c9_distinct_nonces_witness : ∃ e1 e2,
    EncryptedData.encrypt_data (List.replicate 32 1) (List.replicate 32 2) 5
      ⟨List.replicate 32 0⟩ PaymentId.Empty (List.replicate 24 0) = .ok e1 ∧
    EncryptedData.encrypt_data (List.replicate 32 1) (List.replicate 32 2) 5
      ⟨List.replicate 32 0⟩ PaymentId.Empty (List.replicate 24 7) = .ok e2 ∧
    e1 ≠ e2 := by
  refine ⟨_, _, rfl, rfl, ?_⟩
  exact c9_distinct_nonces (List.replicate 32 1) (List.replicate 32 2) 5
    ⟨List.replicate 32 0⟩ PaymentId.Empty (List.replicate 24 0) (List.replicate 24 7) _ _
    (by decide) (by decide) (by decide) rfl rfl

/-- C10: `PaymentId::from_bytes` is total — on every input byte list, of any
length and content, it returns some variant without a panic (an out-of-bounds
slice, modelled as `none`), given that the single address size exceeds 32 and
the dual size exceeds the single size. -/
theorem c10_from_bytes_total (ssingle sdual : Nat) (ok : List Nat → Bool)
    (bytes : List Nat) (h1 : 32 < ssingle) (h2 : ssingle < sdual) :
    (PaymentId.from_bytes ssingle sdual ok bytes).isSome = true :=
  from_bytes_isSome h1 bytes

/-- C10 witness: totality at a 5-byte input that matches no structured rule
and falls back to `Open`. -/
theorem c10_from_bytes_total_witness :
    (32 < 35 ∧ 35 < 67) ∧
    (PaymentId.from_bytes 35 67 (fun _ => false) (List.replicate 5 3)).isSome = true :=
  ⟨⟨by decide, by decide⟩,
    c10_from_bytes_total 35 67 (fun _ => false) (List.replicate 5 3) (by decide)
      (by decide)⟩

end Tari
